import Mathlib

/-!
Shallow embedding of `src/tools/rfcs-book-gen/src/main.rs` (the RFCS book
generator).  Filenames and file contents are modelled as byte lists
(`OsString` on Unix is an arbitrary byte sequence); the filesystem world the
program interacts with is an explicit state record, and the two failure modes
of the Rust source — a `Result` error propagated with `?`, and a process
abort via `unwrap`/`expect` — are the two non-`ok` constructors of `Outcome`.
-/

namespace RfcsBookGen

/-- A byte string: model of Rust `OsString` / `String` / file contents. -/
abbrev Bytes := List Nat

/-- Bytes of an ASCII string literal (all literals in the source are ASCII,
so code-point = byte). -/
def ascii (s : String) : Bytes := s.data.map Char.toNat

/-- The bytes of `".md"`. -/
def mdSuffix : Bytes := [46, 109, 100]

/-- Helper for `trim_right_matches(".md")`, working on the reversed byte
string: repeatedly strip a leading `"dm."` (i.e. a trailing `".md"`). -/
def stripMdRev : Bytes → Bytes
  | 100 :: 109 :: 46 :: rest => stripMdRev rest
  | s => s

/-- Model of Rust `str::trim_right_matches(".md")`: repeatedly removes the
suffix `".md"` from the end of the string until it no longer occurs. -/
def trimRightMatchesMd (s : Bytes) : Bytes := (stripMdRev s.reverse).reverse

/-- Byte-wise lexicographic `≤` on byte strings: model of the `Ord` instance
of `OsString` (byte-slice comparison) used by `Vec::sort`. -/
def bytesLe : Bytes → Bytes → Bool
  | [], _ => true
  | _ :: _, [] => false
  | a :: as, b :: bs => if a < b then true else if b < a then false else bytesLe as bs

/-- The `≤` relation as a `Prop`. -/
def bytesLE (a b : Bytes) : Prop := bytesLe a b = true

instance : DecidableRel bytesLE := fun a b => by unfold bytesLE; infer_instance

/-- Model of `rfcs_file_names.sort()`: sorting the collected names in
byte-wise lexicographic order. -/
def sortNames (names : List Bytes) : List Bytes := names.insertionSort bytesLE

/-- A UTF-8 continuation byte (`0x80..=0xBF`). -/
def isCont (b : Nat) : Bool := 0x80 ≤ b && b ≤ 0xBF

/-- Whether a byte sequence is valid UTF-8 (RFC 3629): model of the check
performed by Rust `OsStr::to_str` (`str::from_utf8`).  Rejects overlong
encodings, surrogates and code points above `U+10FFFF`. -/
def validUtf8 : Bytes → Bool
  | [] => true
  | b :: rest =>
    if b ≤ 0x7F then validUtf8 rest
    else if 0xC2 ≤ b && b ≤ 0xDF then
      match rest with
      | c :: r => isCont c && validUtf8 r
      | [] => false
    else if b = 0xE0 then
      match rest with
      | c1 :: c2 :: r => (0xA0 ≤ c1 && c1 ≤ 0xBF) && isCont c2 && validUtf8 r
      | _ => false
    else if (0xE1 ≤ b && b ≤ 0xEC) || b = 0xEE || b = 0xEF then
      match rest with
      | c1 :: c2 :: r => isCont c1 && isCont c2 && validUtf8 r
      | _ => false
    else if b = 0xED then
      match rest with
      | c1 :: c2 :: r => (0x80 ≤ c1 && c1 ≤ 0x9F) && isCont c2 && validUtf8 r
      | _ => false
    else if b = 0xF0 then
      match rest with
      | c1 :: c2 :: c3 :: r => (0x90 ≤ c1 && c1 ≤ 0xBF) && isCont c2 && isCont c3 && validUtf8 r
      | _ => false
    else if 0xF1 ≤ b && b ≤ 0xF3 then
      match rest with
      | c1 :: c2 :: c3 :: r => isCont c1 && isCont c2 && isCont c3 && validUtf8 r
      | _ => false
    else if b = 0xF4 then
      match rest with
      | c1 :: c2 :: c3 :: r => (0x80 ≤ c1 && c1 ≤ 0x8F) && isCont c2 && isCont c3 && validUtf8 r
      | _ => false
    else false

/-- One bullet line of the generated summary:
`format!("- [{}]({})\n", name.trim_right_matches(".md"), name)`. -/
def bulletLine (n : Bytes) : Bytes :=
  ascii "- [" ++ trimRightMatchesMd n ++ ascii "](" ++ n ++ ascii ")\n"

/-- The fixed heading pushed first: `"# RFCS\n\n"`. -/
def summaryHeader : Bytes := ascii "# RFCS\n\n"

/-- The full buffer built for `SUMMARY.md`, given the (unsorted) listing of
source-entry names.  `none` models the `to_str().unwrap()` panic hit when
some name is not valid UTF-8. -/
def summaryText (names : List Bytes) : Option Bytes :=
  if (sortNames names).all validUtf8 then
    some (summaryHeader ++ ((sortNames names).map bulletLine).flatten)
  else none

/-- The file name `"SUMMARY.md"`. -/
def summaryName : Bytes := ascii "SUMMARY.md"

/-- Point update of a directory map: writing `v` to file `n`. -/
def update (d : Bytes → Option Bytes) (n v : Bytes) : Bytes → Option Bytes :=
  fun m => if m = n then some v else d m

/-- The filesystem world the program runs against.  Each fallible call's
result is a field: `listing1`/`listing2` are the two `read_dir` calls
(`none` = the call itself errors), `copyOk n` is whether `fs::copy` of entry
`n` succeeds, `dest` maps a file name inside the destination directory to
its content. -/
structure World where
  createDirOk : Bool
  destDirExists : Bool
  listing1 : Option (List Bytes)
  listing2 : Option (List Bytes)
  srcContent : Bytes → Bytes
  createSummaryOk : Bool
  writeSummaryOk : Bool
  copyOk : Bytes → Bool
  dest : Bytes → Option Bytes

/-- Which fallible step produced a propagated (`?`) error. -/
inductive Stage
  | createDir | readDir1 | createSummary | writeSummary | readDir2
deriving DecidableEq

/-- How a call to `run` ends: `ok` (returns `Ok(())`), `ioError` (returns
`Err`, a recoverable typed error), or `panicked` (the process aborts via
`unwrap`/`expect` inside `run`). -/
inductive Outcome
  | ok
  | ioError (s : Stage)
  | panicked (msg : String)
deriving DecidableEq

/-- Panic message of `Option::unwrap` on `None` (the `to_str().unwrap()` on a
non-UTF-8 name). -/
def unwrapNoneMsg : String := "called Option::unwrap() on a None value"

/-- Panic message of the copy loop's `.expect("could not copy")`. -/
def copyPanicMsg : String := "could not copy"

/-- The copy loop: for each listed entry, copy its content into the
destination under its base name, overwriting; abort on the first failing
copy.  Returns the final destination map, the entries actually copied (in
order), and whether the loop panicked. -/
def copyLoop (copyOk : Bytes → Bool) (content : Bytes → Bytes)
    (dest : Bytes → Option Bytes) :
    List Bytes → ((Bytes → Option Bytes) × List Bytes × Bool)
  | [] => (dest, [], false)
  | n :: rest =>
    if copyOk n then
      let r := copyLoop copyOk content (update dest n (content n)) rest
      (r.1, n :: r.2.1, r.2.2)
    else (dest, [], true)

/-- Result of a call to `run`: outcome, whether the destination directory
exists afterwards, its file contents, and the trace of copied entries. -/
structure RunResult where
  outcome : Outcome
  destDirExists : Bool
  dest : Bytes → Option Bytes
  copies : List Bytes

/-- Model of `run(src_path, dest_path)`, following the source order:
build the heading, `create_dir_all`, `read_dir` + collect + sort, build the
bullet lines (panicking on a non-UTF-8 name), `File::create` then
`write_all` for `SUMMARY.md` (create truncates to empty before the write),
`read_dir` again, and the copy loop. -/
def run (w : World) : RunResult :=
  if !w.createDirOk then ⟨.ioError .createDir, w.destDirExists, w.dest, []⟩
  else
    match w.listing1 with
    | none => ⟨.ioError .readDir1, true, w.dest, []⟩
    | some names =>
      match summaryText names with
      | none => ⟨.panicked unwrapNoneMsg, true, w.dest, []⟩
      | some buf =>
        if !w.createSummaryOk then ⟨.ioError .createSummary, true, w.dest, []⟩
        else
          let dest1 := update w.dest summaryName []
          if !w.writeSummaryOk then ⟨.ioError .writeSummary, true, dest1, []⟩
          else
            let dest2 := update dest1 summaryName buf
            match w.listing2 with
            | none => ⟨.ioError .readDir2, true, dest2, []⟩
            | some names2 =>
              let r := copyLoop w.copyOk w.srcContent dest2 names2
              ⟨if r.2.2 then .panicked copyPanicMsg else .ok, true, r.1, r.2.1⟩

/-- Result of running `main`: exit code (`0` success, `101` = Rust panic
abort), the panic message if any, and the filesystem state afterwards. -/
structure MainResult where
  exitCode : Nat
  message : Option String
  destDirExists : Bool
  dest : Bytes → Option Bytes

/-- Model of `main`: `args` is `env::args_os()` including the program name at
index 0.  The two `expect`s on the positional arguments fire before any
filesystem call; then `run(...).unwrap()` turns a returned error into a
panic as well. -/
def mainRun (args : List Bytes) (w : World) : MainResult :=
  match args[1]? with
  | none => ⟨101, some "source path required", w.destDirExists, w.dest⟩
  | some _ =>
    match args[2]? with
    | none => ⟨101, some "destination path required", w.destDirExists, w.dest⟩
    | some _ =>
      let r := run w
      match r.outcome with
      | .ok => ⟨0, none, r.destDirExists, r.dest⟩
      | .ioError _ => ⟨101, some "called Result::unwrap() on an Err value", r.destDirExists, r.dest⟩
      | .panicked m => ⟨101, some m, r.destDirExists, r.dest⟩

/-- The title the spec's P2 prescribes, modelled from the spec's words: remove
exactly one trailing `".md"` if present, else leave the name unchanged.
(For comparison with the source's `trimRightMatchesMd`.) -/
def specTitle (n : Bytes) : Bytes :=
  if n.drop (n.length - 3) = mdSuffix then n.take (n.length - 3) else n

/-! ### The byte-wise order is total, transitive and antisymmetric -/

def bytesLe_total : ∀ a b : Bytes, bytesLe a b = true ∨ bytesLe b a = true
  | [], _ => by left; rfl
  | _ :: _, [] => by right; rfl
  | a :: as, b :: bs => by
    simp only [bytesLe]
    rcases Nat.lt_trichotomy a b with h | h | h
    · left; simp [h]
    · subst h
      simp only [lt_irrefl, if_false]
      exact bytesLe_total as bs
    · right; simp [h]

def bytesLe_trans :
    ∀ a b c : Bytes, bytesLe a b = true → bytesLe b c = true → bytesLe a c = true
  | [], _, _ => by intro _ _; rfl
  | _ :: _, [], _ => by intro h; simp [bytesLe] at h
  | _ :: _, _ :: _, [] => by intro _ h; simp [bytesLe] at h
  | a :: as, b :: bs, c :: cs => by
    intro h1 h2
    simp only [bytesLe] at h1 h2 ⊢
    split_ifs at h1 h2 ⊢ with hab hba hbc hcb hac hca <;> try rfl
    all_goals try omega
    all_goals try simp_all
    · exact bytesLe_trans as bs cs h1 h2

def bytesLe_antisymm :
    ∀ a b : Bytes, bytesLe a b = true → bytesLe b a = true → a = b
  | [], [] => by intro _ _; rfl
  | [], _ :: _ => by intro _ h; simp [bytesLe] at h
  | _ :: _, [] => by intro h _; simp [bytesLe] at h
  | a :: as, b :: bs => by
    intro h1 h2
    simp only [bytesLe] at h1 h2
    split_ifs at h1 h2 with hab hba <;> try omega
    have : a = b := by omega
    subst this
    rw [bytesLe_antisymm as bs h1 h2]

instance : IsTotal Bytes bytesLE := ⟨fun a b => bytesLe_total a b⟩
instance : IsTrans Bytes bytesLE := ⟨fun a b c => bytesLe_trans a b c⟩
instance : IsAntisymm Bytes bytesLE := ⟨fun a b => bytesLe_antisymm a b⟩

/-- The bytes of `".md"` reversed. -/
def mdRev : Bytes := [100, 109, 46]

/-- `k` copies of `".md"` concatenated. -/
def repMd (k : Nat) : Bytes := (List.replicate k mdSuffix).flatten

/-- `k` copies of the reversed `".md"` concatenated. -/
def repMdRev (k : Nat) : Bytes := (List.replicate k mdRev).flatten

/-! ### Concrete worlds used to instantiate the theorems -/

/-- The spec's example scenario: a source directory holding `a.md`, `b.md`
and `0-intro.md`, every filesystem call succeeding, an empty destination. -/
def wEx : World where
  createDirOk := true
  destDirExists := false
  listing1 := some [ascii "a.md", ascii "b.md", ascii "0-intro.md"]
  listing2 := some [ascii "a.md", ascii "b.md", ascii "0-intro.md"]
  srcContent := fun n => n ++ [33]
  createSummaryOk := true
  writeSummaryOk := true
  copyOk := fun _ => true
  dest := fun _ => none

/-- The generated `SUMMARY.md` for the example scenario. -/
def bufEx : Bytes :=
  ascii "# RFCS\n\n- [0-intro](0-intro.md)\n- [a](a.md)\n- [b](b.md)\n"

/-- Example world where the first directory listing fails. -/
def wList : World := { wEx with listing1 := none }

/-- Example world where creating the destination directory fails. -/
def wCd : World := { wEx with createDirOk := false }

/-- Example world where `File::create` of `SUMMARY.md` fails. -/
def wCs : World := { wEx with createSummaryOk := false }

/-- Example world where `write_all` of `SUMMARY.md` fails. -/
def wWs : World := { wEx with writeSummaryOk := false }

/-- Example world where the second directory listing fails. -/
def wL2 : World := { wEx with listing2 := none }

/-- Example world where every copy fails. -/
def wCp : World := { wEx with copyOk := fun _ => false }

/-- Example world whose single source entry has a non-UTF-8 name. -/
def wBad : World := { wEx with listing1 := some [[255]], listing2 := some [[255]] }

/-- Example world whose source directory itself contains a `SUMMARY.md`. -/
def wSum : World :=
  { wEx with
    listing2 := some [ascii "a.md", summaryName],
    srcContent := fun n => if n = summaryName then ascii "custom index" else n ++ [33] }

/-- Example argument vector with the destination argument missing. -/
def argsNoDest : List Bytes := [ascii "prog", ascii "srcdir"]

/-- Number of occurrences of the name `a` in a list of names. -/
def countName (a : Bytes) (l : List Bytes) : Nat := l.countP (fun x => x = a)

/-- The sorted name list is a permutation of the listing. -/
theorem sortNames_perm (l : List Bytes) : (sortNames l).Perm l :=
  List.perm_insertionSort bytesLE l

/-- The sorted name list is sorted in byte-wise lexicographic order. -/
theorem sortNames_sorted (l : List Bytes) : (sortNames l).Sorted bytesLE :=
  List.sorted_insertionSort bytesLE l

/-- Sorting is determined by the multiset of names: two listing orders of the
same entries sort to the same list. -/
theorem sortNames_eq_of_perm {l₁ l₂ : List Bytes} (h : l₁.Perm l₂) :
    sortNames l₁ = sortNames l₂ :=
  List.eq_of_perm_of_sorted
    (((sortNames_perm l₁).trans h).trans (sortNames_perm l₂).symm)
    (sortNames_sorted l₁) (sortNames_sorted l₂)

/-! ### Structure of `trim_right_matches(".md")` -/

theorem repMdRev_succ (k : Nat) : repMdRev (k + 1) = mdRev ++ repMdRev k := by
  simp [repMdRev, List.replicate_succ]

theorem repMdRev_add (a b : Nat) : repMdRev (a + b) = repMdRev a ++ repMdRev b := by
  unfold repMdRev
  rw [List.replicate_add, List.flatten_append]

theorem length_repMdRev (k : Nat) : (repMdRev k).length = 3 * k := by
  induction k with
  | zero => rfl
  | succ j ih =>
    rw [repMdRev_succ, List.length_append, ih]
    have h3 : mdRev.length = 3 := rfl
    rw [h3]; omega

theorem repMd_comm (k : Nat) : repMd k ++ mdSuffix = mdSuffix ++ repMd k := by
  induction k with
  | zero => simp [repMd]
  | succ j ih =>
    have h1 : repMd (j + 1) = mdSuffix ++ repMd j := by
      simp [repMd, List.replicate_succ]
    rw [h1, List.append_assoc, ih]

theorem reverse_repMdRev (k : Nat) : (repMdRev k).reverse = repMd k := by
  induction k with
  | zero => rfl
  | succ j ih =>
    rw [repMdRev_succ, List.reverse_append, ih]
    have h1 : mdRev.reverse = mdSuffix := rfl
    rw [h1, repMd_comm]
    simp [repMd, List.replicate_succ]

theorem stripMdRev_decomp (s : Bytes) : ∃ k, s = repMdRev k ++ stripMdRev s := by
  induction s using stripMdRev.induct with
  | case1 rest ih =>
    obtain ⟨k, hk⟩ := ih
    refine ⟨k + 1, ?_⟩
    rw [stripMdRev, repMdRev_succ]
    simp [mdRev]
    exact hk
  | case2 s h => exact ⟨0, by simp [stripMdRev, repMdRev]⟩

theorem stripMdRev_no_md (s : Bytes) : ∀ t, stripMdRev s ≠ 100 :: 109 :: 46 :: t := by
  induction s using stripMdRev.induct with
  | case1 rest ih => intro t; rw [stripMdRev]; exact ih t
  | case2 s h =>
    intro t hc
    rw [stripMdRev] at hc
    exacts [h t hc, h]

/-- The displayed title decomposes the filename: the name is the title
followed by some number of `".md"` copies, and the title itself does not end
in `".md"`. -/
theorem trimRightMatchesMd_decomp (n : Bytes) :
    ∃ k, n = trimRightMatchesMd n ++ repMd k ∧
      ∀ t, trimRightMatchesMd n ≠ t ++ mdSuffix := by
  obtain ⟨k, hk⟩ := stripMdRev_decomp n.reverse
  refine ⟨k, ?_, ?_⟩
  · have h1 : n = n.reverse.reverse := (List.reverse_reverse n).symm
    calc n = n.reverse.reverse := h1
    _ = (repMdRev k ++ stripMdRev n.reverse).reverse := by rw [← hk]
    _ = (stripMdRev n.reverse).reverse ++ (repMdRev k).reverse := by
        rw [List.reverse_append]
    _ = trimRightMatchesMd n ++ repMd k := by
        rw [reverse_repMdRev]; rfl
  · intro t ht
    have h2 : stripMdRev n.reverse = (t ++ mdSuffix).reverse := by
      have : (trimRightMatchesMd n).reverse = stripMdRev n.reverse := by
        unfold trimRightMatchesMd; rw [List.reverse_reverse]
      rw [← this, ht]
    rw [List.reverse_append] at h2
    exact stripMdRev_no_md n.reverse t.reverse (by simpa [mdSuffix] using h2)

/-- A name that does not end in `".md"` is displayed unchanged. -/
theorem trimRightMatchesMd_of_no_suffix {n : Bytes}
    (h : ∀ t, n ≠ t ++ mdSuffix) : trimRightMatchesMd n = n := by
  obtain ⟨k, hk, -⟩ := trimRightMatchesMd_decomp n
  match k with
  | 0 => simpa [repMd] using hk.symm
  | j + 1 =>
    exfalso
    have h1 : repMd (j + 1) = repMd j ++ mdSuffix := by
      have : repMd (j + 1) = mdSuffix ++ repMd j := by
        simp [repMd, List.replicate_succ]
      rw [this, ← repMd_comm]
    exact h (trimRightMatchesMd n ++ repMd j)
      (by rw [List.append_assoc, ← h1]; exact hk)

/-- Cancellation for reversed bullet-line bodies, assuming `a ≤ b`: if
`M^a ++ x ++ [40,93] ++ x = M^b ++ y ++ [40,93] ++ y` where `M` is the
reversed `".md"` and neither `x` nor `y` starts with `M`, then `a = b` and
`x = y`. -/
theorem revBody_cancel_le {a b : Nat} {x y : Bytes} (hab : a ≤ b)
    (hx : ∀ t, x ≠ 100 :: 109 :: 46 :: t) (_hy : ∀ t, y ≠ 100 :: 109 :: 46 :: t)
    (h : repMdRev a ++ (x ++ ([40, 93] ++ x)) = repMdRev b ++ (y ++ ([40, 93] ++ y))) :
    a = b ∧ x = y := by
  obtain ⟨c, hc⟩ : ∃ c, b = a + c := ⟨b - a, by omega⟩
  subst hc
  rw [repMdRev_add, List.append_assoc] at h
  have h2 := List.append_cancel_left h
  match c with
  | 0 =>
    rw [show repMdRev 0 = [] from rfl, List.nil_append] at h2
    have hlen : x.length = y.length := by
      have h4 := congrArg List.length h2
      simp only [List.length_append, List.length_cons] at h4
      omega
    exact ⟨by omega, (List.append_inj h2 hlen).1⟩
  | c' + 1 =>
    exfalso
    have hlen := congrArg List.length h2
    simp only [List.length_append, length_repMdRev, List.length_cons,
      List.length_nil] at hlen
    by_cases h3 : 3 ≤ x.length
    · have t1 : (x ++ ([40, 93] ++ x)).take 3 = x.take 3 :=
        List.take_append_of_le_length h3
      have t2 : (repMdRev (c' + 1) ++ (y ++ ([40, 93] ++ y))).take 3 = [100, 109, 46] := by
        rw [repMdRev_succ, List.append_assoc,
          List.take_append_of_le_length (by decide : 3 ≤ mdRev.length)]
        rfl
      have t3 : x.take 3 = [100, 109, 46] := by rw [← t1, h2, t2]
      have hx3 : x = 100 :: 109 :: 46 :: x.drop 3 := by
        have e := List.take_append_drop 3 x
        rw [t3] at e
        exact e.symm
      exact hx (x.drop 3) hx3
    · omega

/-- Cancellation for reversed bullet-line bodies, general form. -/
theorem revBody_cancel {a b : Nat} {x y : Bytes}
    (hx : ∀ t, x ≠ 100 :: 109 :: 46 :: t) (hy : ∀ t, y ≠ 100 :: 109 :: 46 :: t)
    (h : repMdRev a ++ (x ++ ([40, 93] ++ x)) = repMdRev b ++ (y ++ ([40, 93] ++ y))) :
    a = b ∧ x = y := by
  rcases Nat.le_total a b with hab | hab
  · exact revBody_cancel_le hab hx hy h
  · obtain ⟨e1, e2⟩ := revBody_cancel_le hab hy hx h.symm
    exact ⟨e1.symm, e2.symm⟩

/-- Distinct filenames produce distinct bullet lines.  (The filename can be
recovered from the line even though the title may contain `](` itself.) -/
theorem bulletLine_inj {n1 n2 : Bytes} (h : bulletLine n1 = bulletLine n2) :
    n1 = n2 := by
  unfold bulletLine at h
  simp only [List.append_assoc] at h
  have h1 := List.append_cancel_left h
  have e : ∀ T n : Bytes,
      T ++ (ascii "](" ++ (n ++ ascii ")\n")) = (T ++ (ascii "](" ++ n)) ++ ascii ")\n" := by
    intro T n; simp [List.append_assoc]
  rw [e (trimRightMatchesMd n1) n1, e (trimRightMatchesMd n2) n2] at h1
  have h2 := List.append_cancel_right h1
  have h3 := congrArg List.reverse h2
  have eB : (ascii "](").reverse = [40, 93] := rfl
  simp only [List.reverse_append, List.append_assoc, eB] at h3
  have eT : ∀ n : Bytes, (trimRightMatchesMd n).reverse = stripMdRev n.reverse := by
    intro n; unfold trimRightMatchesMd; rw [List.reverse_reverse]
  rw [eT n1, eT n2] at h3
  set x1 := stripMdRev n1.reverse with hx1
  set x2 := stripMdRev n2.reverse with hx2
  obtain ⟨a1, ha1⟩ := stripMdRev_decomp n1.reverse
  obtain ⟨a2, ha2⟩ := stripMdRev_decomp n2.reverse
  rw [← hx1] at ha1
  rw [← hx2] at ha2
  rw [ha1, ha2, List.append_assoc, List.append_assoc] at h3
  obtain ⟨hA, hX⟩ := revBody_cancel
    (fun t => hx1 ▸ stripMdRev_no_md n1.reverse t)
    (fun t => hx2 ▸ stripMdRev_no_md n2.reverse t) h3
  have hrev : n1.reverse = n2.reverse := by rw [ha1, ha2, hA, hX]
  have := congrArg List.reverse hrev
  simpa [List.reverse_reverse] using this

/-! ### The copy loop -/

/-- When every copy succeeds, the loop copies each listed entry once, in
listing order, and the final destination holds each entry's source content. -/
theorem copyLoop_ok (copyOk : Bytes → Bool) (content : Bytes → Bytes) :
    ∀ (names : List Bytes) (d : Bytes → Option Bytes),
      (∀ n ∈ names, copyOk n = true) →
      (copyLoop copyOk content d names).2.2 = false ∧
      (copyLoop copyOk content d names).2.1 = names ∧
      ∀ m, (copyLoop copyOk content d names).1 m =
        if m ∈ names then some (content m) else d m
  | [], d, _ => ⟨rfl, rfl, fun m => by simp [copyLoop]⟩
  | n :: rest, d, h => by
    have hn : copyOk n = true := h n (List.mem_cons_self n rest)
    have ih := copyLoop_ok copyOk content rest (update d n (content n))
      (fun m hm => h m (List.mem_cons_of_mem n hm))
    refine ⟨?_, ?_, ?_⟩
    · simp only [copyLoop, hn, if_true]
      exact ih.1
    · simp only [copyLoop, hn, if_true]
      rw [ih.2.1]
    · intro m
      simp only [copyLoop, hn, if_true]
      rw [ih.2.2 m]
      by_cases hm : m ∈ rest
      · simp [hm]
      · by_cases hmn : m = n
        · subst hmn
          simp [hm, update]
        · simp [hm, hmn, update]

/-- If some listed entry fails to copy, the loop panics. -/
theorem copyLoop_panics (copyOk : Bytes → Bool) (content : Bytes → Bytes) :
    ∀ (names : List Bytes) (d : Bytes → Option Bytes),
      (∃ n ∈ names, copyOk n = false) →
      (copyLoop copyOk content d names).2.2 = true
  | [], _, h => by simp at h
  | n :: rest, d, h => by
    by_cases hn : copyOk n = true
    · simp only [copyLoop, hn, if_true]
      obtain ⟨m, hm, hmf⟩ := h
      rcases List.mem_cons.mp hm with he | hr
      · subst he; rw [hn] at hmf; cases hmf
      · exact copyLoop_panics copyOk content rest _ ⟨m, hr, hmf⟩
    · rw [Bool.not_eq_true] at hn
      simp [copyLoop, hn]

/-! ### `run` on the success path and on each failure path -/

/-- How `run` behaves when every fallible step succeeds: it returns `Ok`,
copies exactly the second listing, and the destination afterwards holds the
source content of every listed entry, the generated `SUMMARY.md` where not
overwritten by a copy, and its prior contents elsewhere. -/
theorem run_success_spec (w : World) (names names2 : List Bytes) (buf : Bytes)
    (hcd : w.createDirOk = true)
    (hl1 : w.listing1 = some names)
    (hbuf : summaryText names = some buf)
    (hcs : w.createSummaryOk = true)
    (hws : w.writeSummaryOk = true)
    (hl2 : w.listing2 = some names2)
    (hcopy : ∀ n ∈ names2, w.copyOk n = true) :
    (run w).outcome = .ok ∧
    (run w).copies = names2 ∧
    (run w).destDirExists = true ∧
    ∀ m, (run w).dest m =
      if m ∈ names2 then some (w.srcContent m)
      else if m = summaryName then some buf
      else w.dest m := by
  obtain ⟨hp, hc, hd⟩ := copyLoop_ok w.copyOk w.srcContent names2
    (update (update w.dest summaryName []) summaryName buf) hcopy
  simp only [run, hcd, hl1, hbuf, hcs, hws, hl2, Bool.not_true, Bool.false_eq_true,
    if_false, hp, hc]
  refine ⟨trivial, trivial, trivial, fun m => ?_⟩
  rw [hd m]
  by_cases hm : m ∈ names2
  · simp [hm]
  · by_cases hms : m = summaryName
    · subst hms; simp [hm, update]
    · simp [hm, hms, update]

/-- `run` when `create_dir_all` fails: the typed error is returned and the
world is untouched. -/
theorem run_createDir_err (w : World) (h : w.createDirOk = false) :
    run w = ⟨.ioError .createDir, w.destDirExists, w.dest, []⟩ := by
  simp [run, h]

/-- `run` when the first `read_dir` fails: the typed error is returned, no
file has been written, but the destination directory has been created. -/
theorem run_readDir1_err (w : World) (hcd : w.createDirOk = true)
    (h : w.listing1 = none) :
    run w = ⟨.ioError .readDir1, true, w.dest, []⟩ := by
  simp [run, hcd, h]

/-- `run` when some listed name is not valid UTF-8: the buffer-building loop
panics via `unwrap`, before `SUMMARY.md` is created. -/
theorem run_utf8_panic (w : World) (names : List Bytes)
    (hcd : w.createDirOk = true) (hl1 : w.listing1 = some names)
    (h : summaryText names = none) :
    run w = ⟨.panicked unwrapNoneMsg, true, w.dest, []⟩ := by
  simp [run, hcd, hl1, h]

/-- `run` when `File::create` for `SUMMARY.md` fails: typed error. -/
theorem run_createSummary_err (w : World) (names : List Bytes) (buf : Bytes)
    (hcd : w.createDirOk = true) (hl1 : w.listing1 = some names)
    (hbuf : summaryText names = some buf) (h : w.createSummaryOk = false) :
    run w = ⟨.ioError .createSummary, true, w.dest, []⟩ := by
  simp [run, hcd, hl1, hbuf, h]

/-- `run` when `write_all` fails: typed error; the summary file exists but
was truncated to empty by `File::create`. -/
theorem run_writeSummary_err (w : World) (names : List Bytes) (buf : Bytes)
    (hcd : w.createDirOk = true) (hl1 : w.listing1 = some names)
    (hbuf : summaryText names = some buf) (hcs : w.createSummaryOk = true)
    (h : w.writeSummaryOk = false) :
    run w = ⟨.ioError .writeSummary, true, update w.dest summaryName [], []⟩ := by
  simp [run, hcd, hl1, hbuf, hcs, h]

/-- `run` when the second `read_dir` fails: typed error; `SUMMARY.md` has
already been written. -/
theorem run_readDir2_err (w : World) (names : List Bytes) (buf : Bytes)
    (hcd : w.createDirOk = true) (hl1 : w.listing1 = some names)
    (hbuf : summaryText names = some buf) (hcs : w.createSummaryOk = true)
    (hws : w.writeSummaryOk = true) (h : w.listing2 = none) :
    run w = ⟨.ioError .readDir2, true,
      update (update w.dest summaryName []) summaryName buf, []⟩ := by
  simp [run, hcd, hl1, hbuf, hcs, hws, h]

/-- `run` when some individual copy fails: the process panics with the
`expect` message instead of returning a typed error. -/
theorem run_copy_panic (w : World) (names names2 : List Bytes) (buf : Bytes)
    (hcd : w.createDirOk = true) (hl1 : w.listing1 = some names)
    (hbuf : summaryText names = some buf) (hcs : w.createSummaryOk = true)
    (hws : w.writeSummaryOk = true) (hl2 : w.listing2 = some names2)
    (h : ∃ n ∈ names2, w.copyOk n = false) :
    (run w).outcome = .panicked copyPanicMsg := by
  have hp := copyLoop_panics w.copyOk w.srcContent names2
    (update (update w.dest summaryName []) summaryName buf) h
  simp [run, hcd, hl1, hbuf, hcs, hws, hl2, hp]

/-- Sorting does not change which names satisfy a Boolean predicate. -/
theorem sortNames_all (p : Bytes → Bool) (names : List Bytes) :
    (sortNames names).all p = names.all p := by
  rw [Bool.eq_iff_iff, List.all_eq_true, List.all_eq_true]
  constructor
  · intro h x hx; exact h x ((sortNames_perm names).mem_iff.mpr hx)
  · intro h x hx; exact h x ((sortNames_perm names).mem_iff.mp hx)

/-- If some name is not valid UTF-8, building the summary buffer panics. -/
theorem summaryText_none_of {names : List Bytes}
    (h : names.all validUtf8 = false) : summaryText names = none := by
  unfold summaryText
  rw [sortNames_all validUtf8 names, h]
  simp

/-- If every name is valid UTF-8, the summary buffer is the heading followed
by the bullet lines of the sorted names. -/
theorem summaryText_some_of {names : List Bytes}
    (h : names.all validUtf8 = true) :
    summaryText names =
      some (summaryHeader ++ ((sortNames names).map bulletLine).flatten) := by
  unfold summaryText
  rw [sortNames_all validUtf8 names, h]
  simp

theorem countName_eq_zero {a : Bytes} :
    ∀ {l : List Bytes}, a ∉ l → countName a l = 0
  | [], _ => rfl
  | x :: xs, h => by
    unfold countName
    rw [List.countP_cons]
    have hx : ¬(x = a) := fun he => h (he ▸ List.mem_cons_self x xs)
    have hxs : a ∉ xs := fun hm => h (List.mem_cons_of_mem x hm)
    simp only [hx, decide_eq_true_eq, if_neg hx]
    have := countName_eq_zero hxs
    unfold countName at this
    simp [this, hx]

theorem countName_eq_one_of_nodup {a : Bytes} :
    ∀ {l : List Bytes}, l.Nodup → a ∈ l → countName a l = 1
  | [], _, h => absurd h (List.not_mem_nil a)
  | x :: xs, hnd, h => by
    obtain ⟨hx, hxs⟩ := List.nodup_cons.mp hnd
    unfold countName
    rw [List.countP_cons]
    rcases List.mem_cons.mp h with he | hm
    · subst he
      have h0 := countName_eq_zero hx
      unfold countName at h0
      simp [h0]
    · have h1 := countName_eq_one_of_nodup hxs hm
      unfold countName at h1
      have hne : ¬(x = a) := fun he => hx (he ▸ hm)
      simp [h1, hne]

theorem countName_map_of_inj {f : Bytes → Bytes} (hf : Function.Injective f)
    (a : Bytes) : ∀ l : List Bytes, countName (f a) (l.map f) = countName a l
  | [] => rfl
  | x :: xs => by
    unfold countName
    rw [List.map_cons, List.countP_cons, List.countP_cons]
    have ih := countName_map_of_inj hf a xs
    unfold countName at ih
    rw [ih]
    by_cases hx : x = a
    · subst hx; simp
    · have : ¬(f x = f a) := fun he => hx (hf he)
      simp [hx, this]

theorem countName_perm {a : Bytes} {l₁ l₂ : List Bytes} (h : l₁.Perm l₂) :
    countName a l₁ = countName a l₂ :=
  h.countP_eq _

/-! ### The claims -/

/-- C1 (counterexample): the claim says a title is the filename with exactly
one trailing `".md"` removed, but on `"a.md.md"` the code's
`trim_right_matches(".md")` yields `"a"`, not `"a.md"`. -/
theorem C1_counterexample :
    trimRightMatchesMd (ascii "a.md.md") = ascii "a" ∧
    specTitle (ascii "a.md.md") = ascii "a.md" ∧
    trimRightMatchesMd (ascii "a.md.md") ≠ specTitle (ascii "a.md.md") :=
  ⟨by decide, by decide, by decide⟩

/-- C1 (amended): the displayed title is the filename with ALL trailing
`".md"` occurrences repeatedly removed — the name decomposes as the title
followed by some number of `".md"` copies, the title itself never ends in
`".md"`, and a filename not ending in `".md"` is unchanged. -/
theorem C1_title_strips_all_trailing_md (n : Bytes) :
    (∃ k, n = trimRightMatchesMd n ++ repMd k) ∧
    (∀ t, trimRightMatchesMd n ≠ t ++ mdSuffix) ∧
    ((∀ t, n ≠ t ++ mdSuffix) → trimRightMatchesMd n = n) := by
  obtain ⟨k, h1, h2⟩ := trimRightMatchesMd_decomp n
  exact ⟨⟨k, h1⟩, h2, fun h => trimRightMatchesMd_of_no_suffix h⟩

/-- Witness for C1 (amended) at the filename `"x"`. -/
theorem C1_title_strips_all_trailing_md_witness :
    ((∃ k, ascii "x" = trimRightMatchesMd (ascii "x") ++ repMd k) ∧
     (∀ t, trimRightMatchesMd (ascii "x") ≠ t ++ mdSuffix) ∧
     ((∀ t, ascii "x" ≠ t ++ mdSuffix) → trimRightMatchesMd (ascii "x") = ascii "x")) ∧
    trimRightMatchesMd (ascii "x") = ascii "x" := by
  have h := C1_title_strips_all_trailing_md (ascii "x")
  have hno : ∀ t : Bytes, ascii "x" ≠ t ++ mdSuffix := by
    intro t ht
    have hlen := congrArg List.length ht
    rw [List.length_append] at hlen
    have e1 : (ascii "x").length = 1 := rfl
    have e2 : mdSuffix.length = 3 := rfl
    rw [e1, e2] at hlen
    omega
  exact ⟨h, h.2.2 hno⟩

/-- C2: the generated bullet order is the byte-wise lexicographically sorted
listing, independent of the order in which the directory yields its
entries: two listing orders of the same entries sort identically and build
the same `SUMMARY.md` buffer. -/
theorem C2_sort_independent_of_listing_order (l₁ l₂ : List Bytes) (h : l₁.Perm l₂) :
    sortNames l₁ = sortNames l₂ ∧
    (sortNames l₁).Perm l₁ ∧
    (sortNames l₁).Sorted bytesLE ∧
    summaryText l₁ = summaryText l₂ := by
  have he := sortNames_eq_of_perm h
  exact ⟨he, sortNames_perm l₁, sortNames_sorted l₁, by unfold summaryText; rw [he]⟩

/-- Witness for C2 at two listing orders of `{a.md, b.md}`. -/
theorem C2_sort_independent_of_listing_order_witness :
    ([ascii "b.md", ascii "a.md"].Perm [ascii "a.md", ascii "b.md"]) ∧
    (sortNames [ascii "b.md", ascii "a.md"] = sortNames [ascii "a.md", ascii "b.md"] ∧
     (sortNames [ascii "b.md", ascii "a.md"]).Perm [ascii "b.md", ascii "a.md"] ∧
     (sortNames [ascii "b.md", ascii "a.md"]).Sorted bytesLE ∧
     summaryText [ascii "b.md", ascii "a.md"] = summaryText [ascii "a.md", ascii "b.md"]) := by
  have hp : ([ascii "b.md", ascii "a.md"].Perm [ascii "a.md", ascii "b.md"]) := by decide
  exact ⟨hp, C2_sort_independent_of_listing_order _ _ hp⟩

/-- C3: on a successful run (whose copy step does not itself bring in a file
named `SUMMARY.md`), the written `SUMMARY.md` is the `# RFCS` heading line,
a blank line, then one `- [<title>](<filename>)` bullet line (each ending in
a newline) per sorted entry; on the spec's example source it equals the
spec's example output. -/
theorem C3_summary_file_format (w : World) (names names2 : List Bytes) (buf : Bytes)
    (hcd : w.createDirOk = true) (hl1 : w.listing1 = some names)
    (hbuf : summaryText names = some buf) (hcs : w.createSummaryOk = true)
    (hws : w.writeSummaryOk = true) (hl2 : w.listing2 = some names2)
    (hcopy : ∀ n ∈ names2, w.copyOk n = true) (hsm : summaryName ∉ names2) :
    (run w).outcome = .ok ∧
    (run w).dest summaryName = some buf ∧
    buf = (ascii "# RFCS\n" ++ ascii "\n") ++ ((sortNames names).map bulletLine).flatten ∧
    (∀ l ∈ (sortNames names).map bulletLine,
      ∃ t f, l = ascii "- [" ++ t ++ ascii "](" ++ f ++ ascii ")\n") ∧
    (names = [ascii "a.md", ascii "b.md", ascii "0-intro.md"] → buf = bufEx) := by
  obtain ⟨ho, _, _, hm⟩ := run_success_spec w names names2 buf hcd hl1 hbuf hcs hws hl2 hcopy
  have hva : names.all validUtf8 = true := by
    rcases hv : names.all validUtf8 with _ | _
    · rw [summaryText_none_of hv] at hbuf; cases hbuf
    · rfl
  have hsome := summaryText_some_of hva
  rw [hbuf] at hsome
  have hb : buf = summaryHeader ++ ((sortNames names).map bulletLine).flatten :=
    Option.some.inj hsome
  refine ⟨ho, ?_, ?_, ?_, ?_⟩
  · rw [hm summaryName]
    simp [hsm]
  · rw [hb]
    have : (ascii "# RFCS\n" ++ ascii "\n") = summaryHeader := by decide
    rw [this]
  · intro l hl
    obtain ⟨f, _, hf⟩ := List.mem_map.mp hl
    exact ⟨trimRightMatchesMd f, f, hf.symm⟩
  · intro hn
    subst hn
    have hc : summaryText [ascii "a.md", ascii "b.md", ascii "0-intro.md"] = some bufEx := by
      decide
    rw [hc] at hbuf
    exact (Option.some.inj hbuf).symm

/-- Witness for C3 at the spec's example world. -/
theorem C3_summary_file_format_witness :
    (run wEx).outcome = .ok ∧
    (run wEx).dest summaryName = some bufEx ∧
    bufEx = (ascii "# RFCS\n" ++ ascii "\n") ++
      ((sortNames [ascii "a.md", ascii "b.md", ascii "0-intro.md"]).map bulletLine).flatten ∧
    (∀ l ∈ (sortNames [ascii "a.md", ascii "b.md", ascii "0-intro.md"]).map bulletLine,
      ∃ t f, l = ascii "- [" ++ t ++ ascii "](" ++ f ++ ascii ")\n") ∧
    ([ascii "a.md", ascii "b.md", ascii "0-intro.md"] =
        [ascii "a.md", ascii "b.md", ascii "0-intro.md"] → bufEx = bufEx) :=
  C3_summary_file_format wEx [ascii "a.md", ascii "b.md", ascii "0-intro.md"]
    [ascii "a.md", ascii "b.md", ascii "0-intro.md"] bufEx (by decide) (by decide)
    (by decide) (by decide) (by decide) (by decide) (by decide) (by decide)

/-- C4: on a successful run over an unchanged source directory (the two
listings agree and have no duplicate names), every entry contributes exactly
one bullet line to the generated summary, is copied exactly once, and its
copy in the destination carries its source content. -/
theorem C4_every_entry_exactly_once (w : World) (names : List Bytes) (buf : Bytes)
    (hcd : w.createDirOk = true) (hl1 : w.listing1 = some names)
    (hl2 : w.listing2 = some names) (hbuf : summaryText names = some buf)
    (hcs : w.createSummaryOk = true) (hws : w.writeSummaryOk = true)
    (hcopy : ∀ n ∈ names, w.copyOk n = true) (hnd : names.Nodup) :
    (run w).outcome = .ok ∧
    (run w).copies = names ∧
    (∀ n ∈ names, countName (bulletLine n) ((sortNames names).map bulletLine) = 1) ∧
    (∀ n ∈ names, countName n (run w).copies = 1) ∧
    (∀ n ∈ names, (run w).dest n = some (w.srcContent n)) := by
  obtain ⟨ho, hc, _, hm⟩ := run_success_spec w names names buf hcd hl1 hbuf hcs hws hl2 hcopy
  have hinj : Function.Injective bulletLine := fun a b h => bulletLine_inj h
  refine ⟨ho, hc, fun n hn => ?_, fun n hn => ?_, fun n hn => ?_⟩
  · rw [countName_map_of_inj hinj n (sortNames names),
      countName_perm (sortNames_perm names)]
    exact countName_eq_one_of_nodup hnd hn
  · rw [hc]
    exact countName_eq_one_of_nodup hnd hn
  · rw [hm n]
    simp [hn]

/-- Witness for C4 at the spec's example world. -/
theorem C4_every_entry_exactly_once_witness :
    (run wEx).outcome = .ok ∧
    (run wEx).copies = [ascii "a.md", ascii "b.md", ascii "0-intro.md"] ∧
    (∀ n ∈ [ascii "a.md", ascii "b.md", ascii "0-intro.md"],
      countName (bulletLine n)
        ((sortNames [ascii "a.md", ascii "b.md", ascii "0-intro.md"]).map bulletLine) = 1) ∧
    (∀ n ∈ [ascii "a.md", ascii "b.md", ascii "0-intro.md"],
      countName n (run wEx).copies = 1) ∧
    (∀ n ∈ [ascii "a.md", ascii "b.md", ascii "0-intro.md"],
      (run wEx).dest n = some (wEx.srcContent n)) :=
  C4_every_entry_exactly_once wEx _ bufEx (by decide) (by decide) (by decide)
    (by decide) (by decide) (by decide) (by decide) (by decide)

/-- C5 (counterexample): the claim says a listing failure leaves nothing
created at or under the destination, but `create_dir_all` runs before
`read_dir`: in a world with no pre-existing destination directory and a
failing listing, the run ends with the listing error yet the destination
directory exists afterwards. -/
theorem C5_counterexample :
    (run wList).outcome = .ioError .readDir1 ∧
    wList.destDirExists = false ∧
    (run wList).destDirExists = true :=
  ⟨by decide, by decide, by decide⟩

/-- C5 (amended): if the source listing fails, the run aborts with the
listing error having written no file and copied nothing — but the
destination directory has already been created by the preceding
`create_dir_all` step. -/
theorem C5_listing_error_no_file_but_dir (w : World)
    (hcd : w.createDirOk = true) (hl : w.listing1 = none) :
    (run w).outcome = .ioError .readDir1 ∧
    (∀ m, (run w).dest m = w.dest m) ∧
    (run w).copies = [] ∧
    (run w).destDirExists = true := by
  rw [run_readDir1_err w hcd hl]
  exact ⟨rfl, fun m => rfl, rfl, rfl⟩

/-- Witness for C5 (amended) at the failing-listing world. -/
theorem C5_listing_error_no_file_but_dir_witness :
    (run wList).outcome = .ioError .readDir1 ∧
    (∀ m, (run wList).dest m = wList.dest m) ∧
    (run wList).copies = [] ∧
    (run wList).destDirExists = true :=
  C5_listing_error_no_file_but_dir wList (by decide) (by decide)

/-- C6: failures of destination-directory creation, of either source
listing, and of creating or writing `SUMMARY.md` are returned from `run` as
typed `ioError`s, whereas a failure of an individual copy makes the process
panic (the copy loop's `expect`) instead of returning such an error. -/
theorem C6_error_propagation (w : World) :
    (w.createDirOk = false → (run w).outcome = .ioError .createDir) ∧
    (w.createDirOk = true → w.listing1 = none →
      (run w).outcome = .ioError .readDir1) ∧
    (∀ names buf, w.createDirOk = true → w.listing1 = some names →
      summaryText names = some buf → w.createSummaryOk = false →
      (run w).outcome = .ioError .createSummary) ∧
    (∀ names buf, w.createDirOk = true → w.listing1 = some names →
      summaryText names = some buf → w.createSummaryOk = true →
      w.writeSummaryOk = false → (run w).outcome = .ioError .writeSummary) ∧
    (∀ names buf, w.createDirOk = true → w.listing1 = some names →
      summaryText names = some buf → w.createSummaryOk = true →
      w.writeSummaryOk = true → w.listing2 = none →
      (run w).outcome = .ioError .readDir2) ∧
    (∀ names names2 buf, w.createDirOk = true → w.listing1 = some names →
      summaryText names = some buf → w.createSummaryOk = true →
      w.writeSummaryOk = true → w.listing2 = some names2 →
      (∃ n ∈ names2, w.copyOk n = false) →
      (run w).outcome = .panicked copyPanicMsg) := by
  refine ⟨fun h => ?_, fun hcd hl => ?_, fun names buf hcd hl1 hbuf h => ?_,
    fun names buf hcd hl1 hbuf hcs h => ?_,
    fun names buf hcd hl1 hbuf hcs hws h => ?_,
    fun names names2 buf hcd hl1 hbuf hcs hws hl2 h => ?_⟩
  · rw [run_createDir_err w h]
  · rw [run_readDir1_err w hcd hl]
  · rw [run_createSummary_err w names buf hcd hl1 hbuf h]
  · rw [run_writeSummary_err w names buf hcd hl1 hbuf hcs h]
  · rw [run_readDir2_err w names buf hcd hl1 hbuf hcs hws h]
  · exact run_copy_panic w names names2 buf hcd hl1 hbuf hcs hws hl2 h

/-- Witness for C6: each error path exercised at a concrete world. -/
theorem C6_error_propagation_witness :
    (run wCd).outcome = .ioError .createDir ∧
    (run wList).outcome = .ioError .readDir1 ∧
    (run wCs).outcome = .ioError .createSummary ∧
    (run wWs).outcome = .ioError .writeSummary ∧
    (run wL2).outcome = .ioError .readDir2 ∧
    (run wCp).outcome = .panicked copyPanicMsg :=
  ⟨(C6_error_propagation wCd).1 (by decide),
   (C6_error_propagation wList).2.1 (by decide) (by decide),
   (C6_error_propagation wCs).2.2.1 [ascii "a.md", ascii "b.md", ascii "0-intro.md"]
     bufEx (by decide) (by decide) (by decide) (by decide),
   (C6_error_propagation wWs).2.2.2.1 [ascii "a.md", ascii "b.md", ascii "0-intro.md"]
     bufEx (by decide) (by decide) (by decide) (by decide) (by decide),
   (C6_error_propagation wL2).2.2.2.2.1 [ascii "a.md", ascii "b.md", ascii "0-intro.md"]
     bufEx (by decide) (by decide) (by decide) (by decide) (by decide) (by decide),
   (C6_error_propagation wCp).2.2.2.2.2 [ascii "a.md", ascii "b.md", ascii "0-intro.md"]
     [ascii "a.md", ascii "b.md", ascii "0-intro.md"] bufEx (by decide) (by decide)
     (by decide) (by decide) (by decide) (by decide) (by decide)⟩

/-- C7: invoked with fewer than two positional arguments, the program aborts
with a non-zero exit status and a descriptive message before any filesystem
I/O (the world is untouched); with exactly the second argument missing, the
message is "destination path required". -/
theorem C7_missing_arguments (args : List Bytes) (w : World) (h : args.length < 3) :
    (mainRun args w).exitCode ≠ 0 ∧
    ((mainRun args w).message = some "source path required" ∨
     (mainRun args w).message = some "destination path required") ∧
    (mainRun args w).destDirExists = w.destDirExists ∧
    (∀ m, (mainRun args w).dest m = w.dest m) ∧
    (args.length = 2 → (mainRun args w).message = some "destination path required") := by
  rcases hg1 : args[1]? with _ | a1
  · have hlen : args.length ≤ 1 := List.getElem?_eq_none_iff.mp hg1
    refine ⟨?_, ?_, ?_, ?_, ?_⟩ <;> simp only [mainRun, hg1] <;> simp
    intro h2
    omega
  · have hg2 : args[2]? = none := List.getElem?_eq_none (by omega)
    refine ⟨?_, ?_, ?_, ?_, ?_⟩ <;> simp only [mainRun, hg1, hg2] <;> simp

/-- Witness for C7 at an argument vector missing the destination. -/
theorem C7_missing_arguments_witness :
    (mainRun argsNoDest wEx).exitCode ≠ 0 ∧
    ((mainRun argsNoDest wEx).message = some "source path required" ∨
     (mainRun argsNoDest wEx).message = some "destination path required") ∧
    (mainRun argsNoDest wEx).destDirExists = wEx.destDirExists ∧
    (∀ m, (mainRun argsNoDest wEx).dest m = wEx.dest m) ∧
    (argsNoDest.length = 2 →
      (mainRun argsNoDest wEx).message = some "destination path required") :=
  C7_missing_arguments argsNoDest wEx (by decide)

/-- C8: running the operation a second time against the destination left by
a first successful run over the same unchanged source succeeds and leaves
the destination — `SUMMARY.md` and every file's content — exactly as the
first run did. -/
theorem C8_idempotent (w : World) (names : List Bytes) (buf : Bytes)
    (hcd : w.createDirOk = true) (hl1 : w.listing1 = some names)
    (hl2 : w.listing2 = some names) (hbuf : summaryText names = some buf)
    (hcs : w.createSummaryOk = true) (hws : w.writeSummaryOk = true)
    (hcopy : ∀ n ∈ names, w.copyOk n = true) :
    (run w).outcome = .ok ∧
    (run { w with dest := (run w).dest,
                  destDirExists := (run w).destDirExists }).outcome = .ok ∧
    ∀ m, (run { w with dest := (run w).dest,
                       destDirExists := (run w).destDirExists }).dest m
        = (run w).dest m := by
  obtain ⟨ho1, _, _, hm1⟩ := run_success_spec w names names buf hcd hl1 hbuf hcs hws hl2 hcopy
  obtain ⟨ho2, _, _, hm2⟩ := run_success_spec
    { w with dest := (run w).dest, destDirExists := (run w).destDirExists }
    names names buf hcd hl1 hbuf hcs hws hl2 hcopy
  refine ⟨ho1, ho2, fun m => ?_⟩
  rw [hm2 m]
  by_cases h1 : m ∈ names
  · rw [hm1 m]; simp [h1]
  · by_cases h2 : m = summaryName
    · rw [hm1 m]; simp [h1, h2]
    · simp [h1, h2]

/-- Witness for C8 at the spec's example world. -/
theorem C8_idempotent_witness :
    (run wEx).outcome = .ok ∧
    (run { wEx with dest := (run wEx).dest,
                    destDirExists := (run wEx).destDirExists }).outcome = .ok ∧
    ∀ m, (run { wEx with dest := (run wEx).dest,
                         destDirExists := (run wEx).destDirExists }).dest m
        = (run wEx).dest m :=
  C8_idempotent wEx [ascii "a.md", ascii "b.md", ascii "0-intro.md"] bufEx
    (by decide) (by decide) (by decide) (by decide) (by decide) (by decide) (by decide)

/-- C9: if the source listing succeeds but some entry name is not valid
UTF-8, the run panics (the `to_str().unwrap()` abort) rather than returning
a typed error; if every listed name is valid UTF-8, that abort never
happens. -/
theorem C9_invalid_utf8_panics (w : World) (names : List Bytes)
    (hcd : w.createDirOk = true) (hl1 : w.listing1 = some names) :
    (names.all validUtf8 = false →
      (run w).outcome = .panicked unwrapNoneMsg ∧
      ∀ s, (run w).outcome ≠ .ioError s) ∧
    (names.all validUtf8 = true →
      (run w).outcome ≠ .panicked unwrapNoneMsg) := by
  constructor
  · intro hv
    rw [run_utf8_panic w names hcd hl1 (summaryText_none_of hv)]
    exact ⟨rfl, fun s h => by cases h⟩
  · intro hv
    have hs := summaryText_some_of hv
    rcases hcs : w.createSummaryOk with _ | _
    · rw [run_createSummary_err w names _ hcd hl1 hs hcs]
      simp [unwrapNoneMsg]
    · rcases hws : w.writeSummaryOk with _ | _
      · rw [run_writeSummary_err w names _ hcd hl1 hs hcs hws]
        simp [unwrapNoneMsg]
      · rcases hl2 : w.listing2 with _ | names2
        · rw [run_readDir2_err w names _ hcd hl1 hs hcs hws hl2]
          simp [unwrapNoneMsg]
        · by_cases hcp : ∀ n ∈ names2, w.copyOk n = true
          · obtain ⟨ho, -, -, -⟩ :=
              run_success_spec w names names2 _ hcd hl1 hs hcs hws hl2 hcp
            rw [ho]
            simp
          · push_neg at hcp
            obtain ⟨n, hn, hf⟩ := hcp
            rw [run_copy_panic w names names2 _ hcd hl1 hs hcs hws hl2
              ⟨n, hn, by simpa using hf⟩]
            simp [copyPanicMsg, unwrapNoneMsg]

/-- Witness for C9: a non-UTF-8 name panics; the all-ASCII example world
never hits that abort. -/
theorem C9_invalid_utf8_panics_witness :
    (([[255]] : List Bytes).all validUtf8 = false ∧
     (run wBad).outcome = .panicked unwrapNoneMsg) ∧
    ([ascii "a.md", ascii "b.md", ascii "0-intro.md"].all validUtf8 = true ∧
     (run wEx).outcome ≠ .panicked unwrapNoneMsg) :=
  ⟨⟨by decide,
    ((C9_invalid_utf8_panics wBad [[255]] (by decide) (by decide)).1 (by decide)).1⟩,
   ⟨by decide,
    (C9_invalid_utf8_panics wEx [ascii "a.md", ascii "b.md", ascii "0-intro.md"]
      (by decide) (by decide)).2 (by decide)⟩⟩

/-- C10: when the source directory itself contains an entry named
`SUMMARY.md`, the copy loop — which runs after the generated index has been
written — overwrites `<destination>/src/SUMMARY.md`, so the final content is
the source file's bytes. -/
theorem C10_source_summary_wins (w : World) (names names2 : List Bytes) (buf : Bytes)
    (hcd : w.createDirOk = true) (hl1 : w.listing1 = some names)
    (hbuf : summaryText names = some buf) (hcs : w.createSummaryOk = true)
    (hws : w.writeSummaryOk = true) (hl2 : w.listing2 = some names2)
    (hcopy : ∀ n ∈ names2, w.copyOk n = true)
    (hmem : summaryName ∈ names2) :
    (run w).outcome = .ok ∧
    (run w).dest summaryName = some (w.srcContent summaryName) := by
  obtain ⟨ho, _, _, hm⟩ := run_success_spec w names names2 buf hcd hl1 hbuf hcs hws hl2 hcopy
  refine ⟨ho, ?_⟩
  rw [hm summaryName]
  simp [hmem]

/-- Witness for C10 at a world whose source contains a custom `SUMMARY.md`. -/
theorem C10_source_summary_wins_witness :
    (run wSum).outcome = .ok ∧
    (run wSum).dest summaryName = some (wSum.srcContent summaryName) :=
  C10_source_summary_wins wSum [ascii "a.md", ascii "b.md", ascii "0-intro.md"]
    [ascii "a.md", summaryName] bufEx (by decide) (by decide) (by decide)
    (by decide) (by decide) (by decide) (by decide) (by decide)

end RfcsBookGen
